import Mathlib

/-!
Verification of the incoming-mail classification and outbound dispatch engine
of castmail2list, embedded shallowly from the Python sources:
`castmail2list/utils.py`, `castmail2list/imap_worker.py`,
`castmail2list/mailer.py` and `castmail2list/models.py`.

Python strings are modelled as `List Char` (`Str`).  Functions that can raise
a `ValueError` (tuple unpacking of `str.split` results) return `Except Unit _`;
`Except.error ()` marks the raised exception.  The external library
`flufl.bounce.scan_message` is not repository code and is modelled as an
oracle argument (the list of recipients it would report).
-/

namespace Castmail

/-- Python `str` as a list of characters. -/
abbrev Str := List Char

/-- String literal helper. -/
def strL (s : String) : Str := s.toList

/-- Model of `s.split(c, 1)` when `c` occurs in `s`: the parts before and after the
first occurrence of `c`; `none` when `c` does not occur (in which case the
Python two-variable unpacking raises `ValueError`). -/
def splitAtFirstChar (c : Char) : Str → Option (Str × Str)
  | [] => none
  | x :: xs =>
    if x = c then some ([], xs)
    else
      match splitAtFirstChar c xs with
      | some (pre, post) => some (x :: pre, post)
      | none => none

/-- Boolean list-prefix test (Python substring matching helper). -/
def isPrefixL : Str → Str → Bool
  | [], _ => true
  | _ :: _, [] => false
  | a :: as, b :: bs => a = b && isPrefixL as bs

/-- First occurrence of `pat` in `s`: the part before the occurrence and the
part after it (Python `s.split(pat, 1)` and the `pat in s` test). -/
def firstOccur (pat : Str) : Str → Option (Str × Str)
  | [] => if isPrefixL pat [] then some ([], []) else none
  | c :: rest =>
    if isPrefixL pat (c :: rest) then some ([], (c :: rest).drop pat.length)
    else
      match firstOccur pat rest with
      | some (pre, post) => some (c :: pre, post)
      | none => none

/-- Python `pat in s` (substring containment). -/
def containsSeq (pat s : Str) : Bool := (firstOccur pat s).isSome

/-- Fueled worker for `replaceAll`; one unit of fuel is consumed per consumed
character position, so `s.length + 1` fuel always suffices. -/
def replaceAllGo (pat repl : Str) : Nat → Str → Str
  | 0, s => s
  | Nat.succ fuel, s =>
    if pat.isEmpty then s
    else if isPrefixL pat s then repl ++ replaceAllGo pat repl fuel (s.drop pat.length)
    else
      match s with
      | [] => []
      | c :: rest => c :: replaceAllGo pat repl fuel rest

/-- Python `s.replace(pat, repl)`: left-to-right, non-overlapping replacement
of every occurrence of `pat` by `repl`. -/
def replaceAll (pat repl s : Str) : Str := replaceAllGo pat repl (s.length + 1) s

/-- Python `s.strip(chars)`: remove leading and trailing characters drawn from
`cs`. -/
def pyStrip (cs s : Str) : Str :=
  ((s.dropWhile (fun c => cs.contains c)).reverse.dropWhile (fun c => cs.contains c)).reverse

/-- Python `str.lower()` (ASCII-adequate). -/
def lowerStr (s : Str) : Str := s.map Char.toLower

/-- Embedding of `utils.create_bounce_address`: build the individualized envelope-from
address `local+bounces--<sanitized-recipient>@domain`, sanitizing the
recipient by `@` → `=` and `+` → `---plus---`.  Raises (`Except.error`) when
the list address contains no `@` (the tuple unpacking of `split("@", 1)`). -/
def create_bounce_address (ml_address recipient : Str) : Except Unit Str :=
  match splitAtFirstChar '@' ml_address with
  | none => .error ()
  | some (local_part, domain_part) =>
    let sanitized :=
      replaceAll (strL "+") (strL "---plus---") (replaceAll (strL "@") (strL "=") recipient)
    .ok (local_part ++ strL "+bounces--" ++ sanitized ++ '@' :: domain_part)

/-- Body of `utils.parse_bounce_address`'s `try` block, before the
`except ValueError` handler. -/
def parse_bounce_address_core (bounce_address : Str) : Except Unit (Option Str) :=
  match splitAtFirstChar '@' bounce_address with
  | none => .error ()
  | some (local_part, _) =>
    match firstOccur (strL "+bounces--") local_part with
    | none => .ok none
    | some (_, sanitized_recipient) =>
      .ok (some (replaceAll (strL "---plus---") (strL "+")
        (replaceAll (strL "=") (strL "@") sanitized_recipient)))

/-- Embedding of `utils.parse_bounce_address`: decode the recipient from a bounce address;
the `except ValueError` handler turns the raised error into `None`. -/
def parse_bounce_address (bounce_address : Str) : Option Str :=
  match parse_bounce_address_core bounce_address with
  | .error _ => none
  | .ok v => v

/-- Embedding of `utils.get_plus_suffix`: the text after the first `+` of the local part,
or `none`.  Raises when the address contains no `@`. -/
def get_plus_suffix (email : Str) : Except Unit (Option Str) :=
  match splitAtFirstChar '@' email with
  | none => .error ()
  | some (local_part, _) =>
    match splitAtFirstChar '+' local_part with
    | some (_, suf) => .ok (some suf)
    | none => .ok none

/-- Embedding of `utils.remove_plus_suffix`: drop a `+suffix` from the local part.  Raises
when the address contains no `@`. -/
def remove_plus_suffix (email : Str) : Except Unit Str :=
  match splitAtFirstChar '@' email with
  | none => .error ()
  | some (local_part, domain_part) =>
    let local' :=
      match splitAtFirstChar '+' local_part with
      | some (pre, _) => pre
      | none => local_part
    .ok (local' ++ '@' :: domain_part)

/-- Embedding of `utils.is_expanded_address_the_mailing_list`: case-insensitive domain
match and local-part match ignoring a `+suffix`.  Raises when either address
contains no `@`. -/
def is_expanded_address_the_mailing_list (to_address list_address : Str) :
    Except Unit Bool :=
  match splitAtFirstChar '@' to_address with
  | none => .error ()
  | some (to_local, to_domain) =>
    match splitAtFirstChar '@' list_address with
    | none => .error ()
    | some (list_local, list_domain) =>
      if lowerStr to_domain ≠ lowerStr list_domain then .ok false
      else
        let to_local_no_suffix :=
          match splitAtFirstChar '+' to_local with
          | some (pre, _) => pre
          | none => to_local
        .ok (lowerStr to_local_no_suffix = lowerStr list_local)

/-- Embedding of `models.MailingList` (the fields the engine reads). -/
structure MList where
  id : Nat
  address : Str
  mode : String
  allowed_senders : List Str
  sender_auth : List Str
  only_subscribers_send : Bool
  deleted : Bool
deriving DecidableEq

/-- Embedding of `models.Subscriber` (the fields the engine reads). -/
structure Subscr where
  list_id : Nat
  email : Str
deriving DecidableEq

/-- The configuration database the engine reads: mailing lists and
subscribers. -/
structure DB where
  lists : List MList
  subs : List Subscr
deriving DecidableEq

/-- State of `utils.get_list_subscribers`'s recursive collection:
`visited_list_ids`, the insertion-ordered keys of `subscribers_dict`, and an
instrumentation flag recording whether the fuel bound was ever insufficient
(the Python recursion has no fuel; proving the flag stays `false` proves the
recursion bounded). -/
structure CollectState where
  visited : List Nat
  emails : List Str
  exhausted : Bool
deriving DecidableEq

/-- Query `Subscriber.query.filter_by(list_id=list_obj.id).all()`. -/
def direct_subs (db : DB) (l : MList) : List Subscr :=
  db.subs.filter (fun s => s.list_id == l.id)

/-- Lookup `ml_addresses.get(sub.email)` for the dict
`{l.address: l for l in all_lists}` — on duplicate addresses the later entry
wins, hence `getLast?`. -/
def nested_list_for (db : DB) (email : Str) : Option MList :=
  (db.lists.filter (fun l => l.address == email)).getLast?

/-- Adding direct subscribers to `subscribers_dict`: first-seen email wins,
insertion order kept. -/
def addEmails (acc : List Str) (ss : List Subscr) : List Str :=
  ss.foldl (fun a s => if s.email ∈ a then a else a ++ [s.email]) acc

/-- The nested-list loop at the end of `_collect_subscribers`: for each direct
subscriber whose email is another configured list's address, recurse (via
`recurse`) unless that list was already visited. -/
def goNested (db : DB) (recurse : MList → CollectState → CollectState) :
    List Subscr → CollectState → CollectState
  | [], st => st
  | sub :: rest, st =>
    let st' :=
      match nested_list_for db sub.email with
      | some nl => if nl.id ∈ st.visited then st else recurse nl st
      | none => st
    goNested db recurse rest st'

/-- Embedding of `utils.get_list_subscribers._collect_subscribers`, with explicit fuel
bounding the recursion depth (the Python function recurses without bound;
`exhausted` records a hypothetical fuel shortage). -/
def collect (db : DB) : Nat → MList → CollectState → CollectState
  | 0, _, st => { st with exhausted := true }
  | Nat.succ fuel, l, st =>
    if l.id ∈ st.visited then st
    else
      let st1 := { st with visited := l.id :: st.visited }
      if l.deleted then st1
      else
        let direct := direct_subs db l
        let st2 := { st1 with emails := addEmails st1.emails direct }
        goNested db (collect db fuel) direct st2

/-- The collection state after `_collect_subscribers(ml)`, run with enough
fuel that each list is entered at most once. -/
def get_list_subscribers_state (db : DB) (ml : MList) : CollectState :=
  collect db (db.lists.length + 2) ml ⟨[], [], false⟩

/-- All configured list addresses (`MailingList.query.all()`, deleted lists
included). -/
def all_list_addresses (db : DB) : List Str := db.lists.map (fun l => l.address)

/-- Embedding of `utils.get_list_subscribers`: the recursively collected subscriber emails
with any configured list address removed. -/
def get_list_subscribers (db : DB) (ml : MList) : List Str :=
  (get_list_subscribers_state db ml).emails.filter
    (fun e => !((all_list_addresses db).contains e))

/-- An inbound `imap_tools` message as the engine reads it: the parsed From
address (`msg.from_values.email`, `none` when the From header is missing),
the To addresses (`msg.to`; `to` is reserved in Lean), and the header dict (lowercased names, tuples of values). -/
structure PyMsg where
  from_email : Option Str
  to_addrs : List Str
  headers : List (String × List Str)
deriving DecidableEq

/-- Lookup `msg.headers.get(key)`: the tuple of values of a header, if present. -/
def headerValues (msg : PyMsg) (key : String) : Option (List Str) :=
  (msg.headers.find? (fun kv => kv.1 == key)).map (fun kv => kv.2)

/-- The message id stored by `store_msg_in_db_and_imap`:
`next(iter(msg.headers.get("message-id", ())), str(uuid.uuid4())).strip("<>")`.
The freshly generated UUID is an explicit argument. -/
def stored_message_id (msg : PyMsg) (uuid : Str) : Str :=
  pyStrip (strL "<>")
    ((((headerValues msg "message-id").getD []).head?).getD uuid)

/-- The To-address scan of `imap_worker.detect_bounce`: the first To address
that `parse_bounce_address` decodes. -/
def firstBounceTo : List Str → Option Str
  | [] => none
  | t :: rest =>
    match parse_bounce_address t with
    | some r => some r
    | none => firstBounceTo rest

/-- Python `", ".join(strs)`. -/
def joinComma : List Str → Str
  | [] => []
  | x :: xs =>
    match xs with
    | [] => x
    | _ => x ++ strL ", " ++ joinComma xs

/-- Embedding of `imap_worker.detect_bounce`: bounce marker in a To address first, then the
`flufl.bounce.scan_message` oracle; empty string means no bounce. -/
def detect_bounce (fluflRecipients : List Str) (msg : PyMsg) : Str :=
  match firstBounceTo msg.to_addrs with
  | some r => r
  | none => if fluflRecipients.isEmpty then [] else joinComma fluflRecipients

/-- The To-address loop of `imap_worker.validate_email_sender_authentication`:
the first To address that matches the list address and carries a `+suffix`
listed in the configured passwords.  Propagates the `ValueError` of
`is_expanded_address_the_mailing_list` on an `@`-less To address. -/
def find_auth_to (ml : MList) (auths : List Str) : List Str → Except Unit (Option Str)
  | [] => .ok none
  | t :: rest =>
    match is_expanded_address_the_mailing_list t ml.address with
    | .error e => .error e
    | .ok matches_list =>
      if matches_list then
        match get_plus_suffix t with
        | .error e => .error e
        | .ok suf =>
          match suf with
          | some p => if p ∈ auths then .ok (some t) else find_auth_to ml auths rest
          | none => find_auth_to ml auths rest
      else find_auth_to ml auths rest

/-- Embedding of `imap_worker.validate_email_sender_authentication`: `some to_addr` models
the returned address, `none` the returned empty string. -/
def validate_email_sender_authentication (msg : PyMsg) (ml : MList)
    (sender_auth_passwords : List Str) : Except Unit (Option Str) :=
  find_auth_to ml sender_auth_passwords msg.to_addrs

/-- Embedding of `imap_worker.remove_password_in_to_address`, acting on `msg.to`.  The
Python list comprehension is `new_to if old_to else to`: the condition tests
the truthiness of `old_to`, not equality with the current element, so every
entry is replaced once `old_to` is non-empty. -/
def remove_password_in_to_address (msg : PyMsg) (old_to new_to : Str) : PyMsg :=
  { msg with to_addrs := msg.to_addrs.map (fun t => if old_to.isEmpty then t else new_to) }

/-- The tail of `imap_worker.validate_email_all_checks` after the sender-auth
stage: group-mode subscriber check, then the `X-CastMail2List-Domain`
self-loop check (a present header is a tuple, so membership is equality with
one value; an absent header defaults to `""`, and `app_domain in ""` holds
only for the empty domain). -/
def validate_after_auth (db : DB) (msg : PyMsg) (ml : MList) (app_domain : Str) :
    String :=
  let subscribers := get_list_subscribers db ml
  if ml.mode == "group" && ml.only_subscribers_send && !subscribers.isEmpty &&
      (match msg.from_email with
       | none => true
       | some e => !(subscribers.contains e)) then
    "sender-not-allowed"
  else
    let same_instance :=
      match headerValues msg "x-castmail2list-domain" with
      | some vals => vals.contains app_domain
      | none => app_domain.isEmpty
    if same_instance then "duplicate-from-same-instance" else "ok"

/-- Embedding of `imap_worker.validate_email_all_checks`: bounce detection, broadcast
allowed-senders check, broadcast sender-auth check (with To rewriting),
group subscriber check, then the self-loop check.  Returns the status and the
(possibly rewritten) message. -/
def validate_email_all_checks (db : DB) (fluflRecipients : List Str)
    (msg : PyMsg) (ml : MList) (app_domain : Str) :
    Except Unit (String × PyMsg) :=
  if !(detect_bounce fluflRecipients msg).isEmpty then .ok ("bounce-msg", msg)
  else if ml.mode == "broadcast" && !ml.allowed_senders.isEmpty &&
      (match msg.from_email with
       | none => true
       | some e => !(ml.allowed_senders.contains e)) then
    .ok ("sender-not-allowed", msg)
  else if ml.mode == "broadcast" && !ml.sender_auth.isEmpty then
    match validate_email_sender_authentication msg ml ml.sender_auth with
    | .error e => .error e
    | .ok none => .ok ("sender-auth-failed", msg)
    | .ok (some passed_to_address) =>
      match remove_plus_suffix passed_to_address with
      | .error e => .error e
      | .ok new_to =>
        let msg' := remove_password_in_to_address msg passed_to_address new_to
        .ok (validate_after_auth db msg' ml app_domain, msg')
  else .ok (validate_after_auth db msg ml app_domain, msg)

/-- IMAP folder names from the application configuration. -/
structure ImapFolders where
  processed : String
  bounces : String
  denied : String
  duplicate : String
deriving DecidableEq

/-- The folder selection at the top of `store_msg_in_db_and_imap`. -/
def target_folder_for (f : ImapFolders) (status : String) : String :=
  if status == "ok" then f.processed
  else if status == "bounce-msg" then f.bounces
  else if status == "duplicate" then f.duplicate
  else f.denied

/-- A row of the `email_in` table (the columns the engine's logic reads). -/
structure EmailInRow where
  message_id : Str
  list_id : Nat
  status : String
deriving DecidableEq

/-- The uniqueness constraint declared by `models.EmailIn`:
`message_id = db.Column(db.String, unique=True, ...)` — `message_id` must be
globally unique, independent of `list_id`.  This is the schema produced by
`db.create_all()` (seeder.py). -/
def email_in_unique_ok (rows : List EmailInRow) (r : EmailInRow) : Bool :=
  rows.all (fun x => !(x.message_id == r.message_id))

/-- The uniqueness constraint installed by migration
`c4ad571fe783_composite_pk_for_email_in.py`: a composite primary key on
`(message_id, list_id)` with the single-column unique constraint dropped. -/
def email_in_composite_ok (rows : List EmailInRow) (r : EmailInRow) : Bool :=
  rows.all (fun x => !(x.message_id == r.message_id && x.list_id == r.list_id))

/-- Embedding of `imap_worker.store_msg_in_db_and_imap`: build the row, attempt the insert
(`IntegrityError` rolls back and retargets the Duplicate folder), and return
the new table contents, the folder the message is moved to, and the
"message was new" flag (`target_folder != IMAP_FOLDER_DUPLICATE`). -/
def store_msg_in_db_and_imap (f : ImapFolders) (rows : List EmailInRow)
    (ml : MList) (msg : PyMsg) (uuid : Str) (status : String) :
    List EmailInRow × String × Bool :=
  let target := target_folder_for f status
  let row : EmailInRow := ⟨stored_message_id msg uuid, ml.id, status⟩
  let out :=
    if email_in_unique_ok rows row then (rows ++ [row], target)
    else (rows, f.duplicate)
  (out.1, out.2, !(out.2 == f.duplicate))

/-- Embedding of `mailer.get_list_subscribers` (the mailer's own, single-level expansion):
direct subscribers, plus the direct subscribers of any list whose address
appears among them, deduplicated, minus all list addresses. -/
def mailer_get_list_subscribers (db : DB) (ml : MList) : List Str :=
  let subscriber_emails := (direct_subs db ml).map (fun s => s.email)
  let ml_addresses := all_list_addresses db
  let overlapping := subscriber_emails.filter (fun e => ml_addresses.contains e)
  let additional := overlapping.foldl
    (fun acc a =>
      match (db.lists.filter (fun l => l.address == a)).head? with
      | some ol => acc ++ ((direct_subs db ol).map (fun s => s.email))
      | none => acc) []
  let deduped := (subscriber_emails ++ additional).foldl
    (fun a e => if e ∈ a then a else a ++ [e]) []
  deduped.filter (fun e => !(ml_addresses.contains e))

/-- One SMTP send performed by `Mail.send_email_to_recipient`. -/
structure SmtpSend where
  envelope_from : Str
  recipient : Str
deriving DecidableEq

/-- Embedding of `mailer.send_msg_to_subscribers`: resolves the subscribers and then hits
the bare `return` at mailer.py line 260; the per-recipient compose-and-send
loop below that line is unreachable, so no SMTP send is ever performed. -/
def send_msg_to_subscribers (db : DB) (ml : MList) (_msg : PyMsg) :
    List SmtpSend :=
  let _subscribers := mailer_get_list_subscribers db ml
  []

/-- Helper discriminator for the `Except` results: `true` iff no exception was
raised. -/
def isOkE {α : Type} : Except Unit α → Bool
  | .ok _ => true
  | .error _ => false

/-- An email is "from a live subscriber" when some non-deleted list — the
polled list itself or a configured one — has a subscriber with that email. -/
def from_live_subscriber (db : DB) (ml : MList) (e : Str) : Prop :=
  ∃ l, (l = ml ∨ l ∈ db.lists) ∧ l.deleted = false ∧
    ∃ s, s ∈ db.subs ∧ s.list_id = l.id ∧ s.email = e

/-- Number of configured lists not yet in the visited set; the measure that
bounds the recursion of `_collect_subscribers`. -/
def unvisitedCount (db : DB) (visited : List Nat) : Nat :=
  (db.lists.filter (fun l => !(visited.contains l.id))).length

/-- Folder configuration used by the concrete scenarios. -/
def scenarioFolders : ImapFolders := ⟨"Processed", "Bounces", "Denied", "Duplicate"⟩

/-- Scenario A list: `ann@ex.com`, broadcast, open (no restrictions). -/
def scenarioA_list : MList := ⟨1, strL "ann@ex.com", "broadcast", [], [], false, false⟩

/-- Scenario A database: the open broadcast list with two normal
subscribers. -/
def scenarioA_db : DB :=
  ⟨[scenarioA_list], [⟨1, strL "a@ex.com"⟩, ⟨1, strL "b@ex.com"⟩]⟩

/-- Scenario A inbound message: From `x@ex.com` To `ann@ex.com`. -/
def scenarioA_msg : PyMsg :=
  ⟨some (strL "x@ex.com"), [strL "ann@ex.com"], [("message-id", [strL "<a1@ex.com>"])]⟩

/-- List of the repository's own test `test_broadcast_sender_auth_as_alternative`:
broadcast, `allowed_senders=["admin@example.com"]`, `sender_auth=["secret123"]`. -/
def authAlt_list : MList :=
  ⟨1, strL "list@example.com", "broadcast", [strL "admin@example.com"],
    [strL "secret123"], false, false⟩

/-- Message of that test: From `user@example.com` (not in the allow-list)
To `list+secret123@example.com` (valid sender-auth suffix). -/
def authAlt_msg : PyMsg :=
  ⟨some (strL "user@example.com"), [strL "list+secret123@example.com"],
    [("message-id", [strL "<auth-alt@example.com>"])]⟩

/-- Broadcast list with only a sender-auth password configured. -/
def suffixOnly_list : MList :=
  ⟨1, strL "list@example.com", "broadcast", [], [strL "secret123"], false, false⟩

/-- Message with the valid suffix on one To address and a second, unrelated
To address. -/
def twoTo_msg : PyMsg :=
  ⟨some (strL "anyone@example.com"),
    [strL "list+secret123@example.com", strL "other@example.com"], []⟩

/-- Broadcast list with an allow-list, for the self-loop ordering
counterexample. -/
def loopGuard_list : MList :=
  ⟨1, strL "list@ex.com", "broadcast", [strL "a@ex.com"], [], false, false⟩

/-- Message from a non-allowed sender that carries this instance's loop-marker
header. -/
def loopGuard_msg : PyMsg :=
  ⟨some (strL "b@ex.com"), [strL "list@ex.com"],
    [("x-castmail2list-domain", [strL "lists.example.com"])]⟩

/-- Open broadcast list for the self-loop witness. -/
def loopOpen_list : MList := ⟨1, strL "list@ex.com", "broadcast", [], [], false, false⟩

/-- Stored row of an already-processed message (Scenario E's original
record). -/
def dupExisting_rows : List EmailInRow := [⟨strL "dup-test-1@example.com", 1, "ok"⟩]

/-- Redelivery of the already-processed Message-ID to the same list. -/
def dupRedelivery_msg : PyMsg :=
  ⟨some (strL "dup@example.com"), [strL "list@example.com"],
    [("message-id", [strL "<dup-test-1@example.com>"])]⟩

/-- Cyclic configuration for the resolver witness: `l1` and `l2` subscribe to
each other, `l2` also subscribes to the soft-deleted `l3`, and human
subscribers `ann`/`bob`/`evil` hang off the three lists. -/
def cyclic_l1 : MList := ⟨1, strL "l1@ex.com", "broadcast", [], [], false, false⟩

/-- Second list of the cyclic configuration. -/
def cyclic_l2 : MList := ⟨2, strL "l2@ex.com", "broadcast", [], [], false, false⟩

/-- Soft-deleted list of the cyclic configuration. -/
def cyclic_l3 : MList := ⟨3, strL "l3@ex.com", "broadcast", [], [], false, true⟩

/-- The cyclic database. -/
def cyclic_db : DB :=
  ⟨[cyclic_l1, cyclic_l2, cyclic_l3],
    [⟨1, strL "l2@ex.com"⟩, ⟨1, strL "ann@ex.com"⟩, ⟨2, strL "l1@ex.com"⟩,
     ⟨2, strL "bob@ex.com"⟩, ⟨2, strL "l3@ex.com"⟩, ⟨3, strL "evil@ex.com"⟩]⟩

/-! Helper lemmas on the Python-string primitives. -/

theorem strL_at : strL "@" = ['@'] := rfl

theorem strL_eq_sign : strL "=" = ['='] := rfl

theorem strL_plus : strL "+" = ['+'] := rfl

theorem strL_bounces : strL "+bounces--" = '+' :: strL "bounces--" := rfl

theorem splitAtFirstChar_append (c : Char) (pre post : Str) (h : c ∉ pre) :
    splitAtFirstChar c (pre ++ c :: post) = some (pre, post) := by
  induction pre with
  | nil => simp [splitAtFirstChar]
  | cons x xs ih =>
    have hx : ¬x = c := fun e => h (e ▸ List.mem_cons_self x xs)
    have hxs : c ∉ xs := fun hm => h (List.mem_cons_of_mem _ hm)
    simp [splitAtFirstChar, hx, ih hxs]

theorem splitAtFirstChar_isSome (c : Char) :
    ∀ s : Str, c ∈ s → ∃ pr po, splitAtFirstChar c s = some (pr, po) := by
  intro s
  induction s with
  | nil => intro h; exact absurd h (List.not_mem_nil c)
  | cons x xs ih =>
    intro h
    by_cases hx : x = c
    · exact ⟨[], xs, by simp [splitAtFirstChar, hx]⟩
    · have hmem : c ∈ xs := by
        rcases List.mem_cons.mp h with h' | h'
        · exact absurd h'.symm hx
        · exact h'
      obtain ⟨pr, po, hpr⟩ := ih hmem
      exact ⟨x :: pr, po, by simp [splitAtFirstChar, hx, hpr]⟩

theorem isPrefixL_append_self (pat ys : Str) : isPrefixL pat (pat ++ ys) = true := by
  induction pat with
  | nil => simp [isPrefixL]
  | cons a as ih => simp [isPrefixL, ih]

theorem firstOccur_at_boundary (c : Char) (p xs ys : Str) (h : c ∉ xs) :
    firstOccur (c :: p) (xs ++ (c :: p) ++ ys) = some (xs, ys) := by
  induction xs with
  | nil =>
    have hpre : isPrefixL (c :: p) (c :: (p ++ ys)) = true := by
      simpa using isPrefixL_append_self (c :: p) ys
    have hdrop : (p ++ ys).drop p.length = ys := List.drop_left p ys
    simp [firstOccur, hpre, hdrop]
  | cons x xs' ih =>
    have hx : ¬c = x := fun e => h (e ▸ List.mem_cons_self x xs')
    have hxs : c ∉ xs' := fun hm => h (List.mem_cons_of_mem _ hm)
    have ih' : firstOccur (c :: p) (xs' ++ c :: (p ++ ys)) = some (xs', ys) := by
      simpa using ih hxs
    simp [firstOccur, isPrefixL, hx, ih']

theorem firstOccur_single_eq_none (a : Char) :
    ∀ s : Str, a ∉ s → firstOccur [a] s = none := by
  intro s
  induction s with
  | nil => intro _; simp [firstOccur, isPrefixL]
  | cons c rest ih =>
    intro h
    have hac : ¬a = c := fun e => h (e ▸ List.mem_cons_self c rest)
    have hrest : a ∉ rest := fun hm => h (List.mem_cons_of_mem _ hm)
    simp [firstOccur, isPrefixL, hac, ih hrest]

theorem containsSeq_single_eq_false (a : Char) (s : Str) (h : a ∉ s) :
    containsSeq [a] s = false := by
  simp [containsSeq, firstOccur_single_eq_none a s h]

theorem replaceAllGo_single (a b : Char) :
    ∀ (fuel : Nat) (s : Str), s.length < fuel →
      replaceAllGo [a] [b] fuel s = s.map (fun c => if c = a then b else c) := by
  intro fuel
  induction fuel with
  | zero => intro s h; exact absurd h (Nat.not_lt_zero _)
  | succ f ih =>
    intro s h
    match s with
    | [] => simp [replaceAllGo, isPrefixL]
    | c :: rest =>
      have hr : rest.length < f := Nat.lt_of_succ_lt_succ h
      by_cases hca : c = a
      · subst hca
        simp [replaceAllGo, isPrefixL, ih rest hr]
      · have hac : ¬a = c := fun e => hca e.symm
        simp [replaceAllGo, isPrefixL, hac, hca, ih rest hr]

theorem replaceAll_single (a b : Char) (s : Str) :
    replaceAll [a] [b] s = s.map (fun c => if c = a then b else c) :=
  replaceAllGo_single a b (s.length + 1) s (Nat.lt_succ_self _)

theorem replaceAllGo_id_of_none (pat repl : Str) :
    ∀ (fuel : Nat) (s : Str), firstOccur pat s = none →
      replaceAllGo pat repl fuel s = s := by
  intro fuel
  induction fuel with
  | zero => intro s _; rfl
  | succ f ih =>
    intro s hno
    by_cases hpe : pat.isEmpty
    · simp [replaceAllGo, hpe]
    · match s with
      | [] =>
        have hp0 : isPrefixL pat [] = false := by
          match pat, hpe with
          | _ :: _, _ => rfl
        simp [replaceAllGo, hpe, hp0]
      | c :: rest =>
        have hp : isPrefixL pat (c :: rest) = false := by
          by_cases hq : isPrefixL pat (c :: rest)
          · simp [firstOccur, hq] at hno
          · simpa using hq
        have hrest : firstOccur pat rest = none := by
          rcases hfo : firstOccur pat rest with _ | pr
          · rfl
          · simp [firstOccur, hp, hfo] at hno
        simp [replaceAllGo, hpe, hp, ih rest hrest]

theorem replaceAll_id_of_not_contains (pat repl s : Str)
    (h : containsSeq pat s = false) : replaceAll pat repl s = s := by
  rcases hfo : firstOccur pat s with _ | pr
  · exact replaceAllGo_id_of_none pat repl (s.length + 1) s hfo
  · simp [containsSeq, hfo] at h

theorem dropWhile_id_of_all_false {p : Char → Bool} (s : Str)
    (h : ∀ c ∈ s, p c = false) : s.dropWhile p = s := by
  cases s with
  | nil => rfl
  | cons a l => simp [List.dropWhile_cons, h a (List.mem_cons_self a l)]

theorem pyStrip_id (cs s : Str) (h : ∀ c ∈ s, cs.contains c = false) :
    pyStrip cs s = s := by
  unfold pyStrip
  rw [dropWhile_id_of_all_false s h,
    dropWhile_id_of_all_false s.reverse (fun c hc => h c (List.mem_reverse.mp hc)),
    List.reverse_reverse]

/-! Claim C4: the bounce-address round-trip. -/

/-- C4 (counterexample): the round-trip `DecodeBounceAddress ∘
EncodeBounceAddress` is not the identity for every recipient: for the valid
list address `list1@list.example.com` and the RFC-valid recipient
`a=b@gmail.com` (whose local part contains `=`), decoding the encoded bounce
address yields `a@b@gmail.com`, not the original recipient, because decoding
turns every `=` into `@`. -/
theorem bounce_roundtrip_fails_on_eq_sign :
    create_bounce_address (strL "list1@list.example.com") (strL "a=b@gmail.com") =
      Except.ok (strL "list1+bounces--a=b=gmail.com@list.example.com") ∧
    parse_bounce_address (strL "list1+bounces--a=b=gmail.com@list.example.com") =
      some (strL "a@b@gmail.com") ∧
    strL "a@b@gmail.com" ≠ strL "a=b@gmail.com" :=
  ⟨rfl, rfl, by decide⟩

/-- C4 (amended): for every list address `local@domain` whose local part
contains neither `@` nor `+`, and every recipient containing no `=`, no `+`
and no occurrence of the literal `---plus---`, decoding the encoded bounce
address returns exactly the original recipient. -/
theorem bounce_roundtrip_safe (ml_local ml_domain r : Str)
    (h1 : '@' ∉ ml_local) (h2 : '+' ∉ ml_local)
    (h3 : '=' ∉ r) (h4 : '+' ∉ r)
    (h5 : containsSeq (strL "---plus---") r = false) :
    ∃ b, create_bounce_address (ml_local ++ '@' :: ml_domain) r = Except.ok b ∧
      parse_bounce_address b = some r := by
  have hsplit := splitAtFirstChar_append '@' ml_local ml_domain h1
  have hsan1 : replaceAll (strL "@") (strL "=") r =
      r.map (fun c => if c = '@' then '=' else c) := by
    rw [strL_at, strL_eq_sign]; exact replaceAll_single '@' '=' r
  have hplusnot : '+' ∉ r.map (fun c => if c = '@' then '=' else c) := by
    intro hm
    rcases List.mem_map.mp hm with ⟨c, hc, hfc⟩
    by_cases hca : c = '@'
    · simp [hca] at hfc
    · simp [hca] at hfc
      exact h4 (hfc ▸ hc)
  have hsan2 : replaceAll (strL "+") (strL "---plus---")
      (r.map (fun c => if c = '@' then '=' else c)) =
      r.map (fun c => if c = '@' then '=' else c) := by
    rw [strL_plus]
    exact replaceAll_id_of_not_contains _ _ _ (containsSeq_single_eq_false '+' _ hplusnot)
  have henc : create_bounce_address (ml_local ++ '@' :: ml_domain) r =
      Except.ok (ml_local ++ strL "+bounces--" ++
        r.map (fun c => if c = '@' then '=' else c) ++ '@' :: ml_domain) := by
    simp [create_bounce_address, hsplit, hsan1, hsan2]
  refine ⟨_, henc, ?_⟩
  have hat_pre : '@' ∉ ml_local ++ strL "+bounces--" ++
      r.map (fun c => if c = '@' then '=' else c) := by
    intro hm
    rcases List.mem_append.mp hm with hm' | hm'
    · rcases List.mem_append.mp hm' with hm'' | hm''
      · exact h1 hm''
      · revert hm''; decide
    · rcases List.mem_map.mp hm' with ⟨c, _, hfc⟩
      by_cases hca : c = '@'
      · simp [hca] at hfc
      · rw [if_neg hca] at hfc
        exact hca hfc
  have hsplit2 := splitAtFirstChar_append '@'
    (ml_local ++ strL "+bounces--" ++ r.map (fun c => if c = '@' then '=' else c))
    ml_domain hat_pre
  have hocc : firstOccur (strL "+bounces--")
      (ml_local ++ strL "+bounces--" ++ r.map (fun c => if c = '@' then '=' else c)) =
      some (ml_local, r.map (fun c => if c = '@' then '=' else c)) := by
    rw [strL_bounces]
    exact firstOccur_at_boundary '+' (strL "bounces--") ml_local _ h2
  have hdec1 : replaceAll (strL "=") (strL "@")
      (r.map (fun c => if c = '@' then '=' else c)) = r := by
    rw [strL_eq_sign, strL_at, replaceAll_single, List.map_map]
    have hpt : ∀ c ∈ r,
        ((fun c => if c = '=' then '@' else c) ∘ fun c => if c = '@' then '=' else c) c =
          id c := by
      intro c hc
      by_cases hca : c = '@'
      · simp [hca, Function.comp]
      · have hce : ¬c = '=' := fun e => h3 (e ▸ hc)
        simp [hca, hce, Function.comp]
    rw [List.map_congr_left hpt, List.map_id]
  have hdec2 : replaceAll (strL "---plus---") (strL "+") r = r :=
    replaceAll_id_of_not_contains _ _ _ h5
  have hsplit2' := hsplit2
  have hocc' := hocc
  simp only [List.append_assoc] at hsplit2' hocc'
  simp [parse_bounce_address, parse_bounce_address_core, hsplit2', hocc', hdec1, hdec2]

/-- C4 (witness): the amended round-trip at the docstring's own example, list
`list1@list.example.com` and recipient `jane.doe@gmail.com`. -/
theorem bounce_roundtrip_safe_witness :
    ∃ b, create_bounce_address (strL "list1" ++ '@' :: strL "list.example.com")
        (strL "jane.doe@gmail.com") = Except.ok b ∧
      parse_bounce_address b = some (strL "jane.doe@gmail.com") :=
  bounce_roundtrip_safe (strL "list1") (strL "list.example.com")
    (strL "jane.doe@gmail.com") (by decide) (by decide) (by decide) (by decide) (by decide)

/-! Claim C9: the address-codec functions and exceptions. -/

/-- C9 (counterexample): `get_plus_suffix` is not exception-free on every
input string: on `abc` (no `@`) the two-variable unpacking of
`email.split("@", 1)` raises `ValueError`. -/
theorem get_plus_suffix_raises_without_at :
    get_plus_suffix (strL "abc") = Except.error () := rfl

/-- C9 (amended): `parse_bounce_address` never raises (its `except
ValueError` handler returns `None`, as its definition shows), and
`get_plus_suffix`, `remove_plus_suffix`, `is_expanded_address_the_mailing_list`
and `create_bounce_address` never raise provided each email-address argument
contains an `@`; non-matches are reported through `none`/`false` results. -/
theorem codec_no_raise_with_at (e l : Str) (he : '@' ∈ e) (hl : '@' ∈ l) :
    isOkE (get_plus_suffix e) = true ∧
    isOkE (remove_plus_suffix e) = true ∧
    isOkE (is_expanded_address_the_mailing_list e l) = true ∧
    isOkE (create_bounce_address l e) = true := by
  obtain ⟨pr, po, hsp⟩ := splitAtFirstChar_isSome '@' e he
  obtain ⟨pr2, po2, hsp2⟩ := splitAtFirstChar_isSome '@' l hl
  refine ⟨?_, ?_, ?_, ?_⟩
  · rcases hps : splitAtFirstChar '+' pr with _ | q <;>
      simp [get_plus_suffix, hsp, hps, isOkE]
  · simp [remove_plus_suffix, hsp, isOkE]
  · simp only [is_expanded_address_the_mailing_list, hsp, hsp2]
    split <;> simp [isOkE]
  · simp [create_bounce_address, hsp2, isOkE]

/-- C9 (witness): the amended claim at `a@b` and `list@ex.com`. -/
theorem codec_no_raise_with_at_witness :
    isOkE (get_plus_suffix (strL "a@b")) = true ∧
    isOkE (remove_plus_suffix (strL "a@b")) = true ∧
    isOkE (is_expanded_address_the_mailing_list (strL "a@b") (strL "list@ex.com")) = true ∧
    isOkE (create_bounce_address (strL "list@ex.com") (strL "a@b")) = true :=
  codec_no_raise_with_at (strL "a@b") (strL "list@ex.com") (by decide) (by decide)

/-! Claim C10: minting of message ids for header-less messages. -/

/-- C10: when a message carries no Message-ID header, storage uses the
freshly generated UUID (stripped of angle brackets, which UUID strings do not
contain) as the stored key, so two header-less messages with distinct fresh
UUIDs get distinct keys and the second insert does not violate the
uniqueness constraint (it is not classified as a duplicate of the first). -/
theorem missing_message_id_distinct_keys
    (m1 m2 : PyMsg) (u1 u2 : Str) (lid1 lid2 : Nat) (st1 st2 : String)
    (h1 : headerValues m1 "message-id" = none)
    (h2 : headerValues m2 "message-id" = none)
    (hne : u1 ≠ u2)
    (hc1 : ∀ c ∈ u1, (strL "<>").contains c = false)
    (hc2 : ∀ c ∈ u2, (strL "<>").contains c = false) :
    stored_message_id m1 u1 = u1 ∧ stored_message_id m2 u2 = u2 ∧
    stored_message_id m1 u1 ≠ stored_message_id m2 u2 ∧
    email_in_unique_ok [⟨stored_message_id m1 u1, lid1, st1⟩]
      ⟨stored_message_id m2 u2, lid2, st2⟩ = true := by
  have e1 : stored_message_id m1 u1 = u1 := by
    simp [stored_message_id, h1, pyStrip_id _ _ hc1]
  have e2 : stored_message_id m2 u2 = u2 := by
    simp [stored_message_id, h2, pyStrip_id _ _ hc2]
  refine ⟨e1, e2, ?_, ?_⟩
  · rw [e1, e2]; exact hne
  · simp [email_in_unique_ok, e1, e2]
    exact hne

/-- C10 (witness): two concrete header-less messages with distinct fresh
UUIDs. -/
theorem missing_message_id_distinct_keys_witness :
    stored_message_id ⟨none, [strL "l@ex.com"], []⟩ (strL "5a01-u1") = strL "5a01-u1" ∧
    stored_message_id ⟨none, [strL "l@ex.com"], []⟩ (strL "5a01-u2") = strL "5a01-u2" ∧
    stored_message_id ⟨none, [strL "l@ex.com"], []⟩ (strL "5a01-u1") ≠
      stored_message_id ⟨none, [strL "l@ex.com"], []⟩ (strL "5a01-u2") ∧
    email_in_unique_ok
      [⟨stored_message_id ⟨none, [strL "l@ex.com"], []⟩ (strL "5a01-u1"), 1, "ok"⟩]
      ⟨stored_message_id ⟨none, [strL "l@ex.com"], []⟩ (strL "5a01-u2"), 1, "ok"⟩ = true :=
  missing_message_id_distinct_keys _ _ _ _ 1 1 "ok" "ok"
    (by decide) (by decide) (by decide) (by decide) (by decide)

/-! Claim C2: broadcast authorization paths. -/

/-- C2: contrary to the claim (and to the repository's own test
`test_broadcast_sender_auth_as_alternative`), the broadcast authorization
paths are not independently sufficient: with both `allowed_senders` and
`sender_auth` configured, a sender outside the allow-list is rejected with
`sender-not-allowed` even though a recipient address carries a valid
`sender_auth` suffix — the allow-list check returns before the suffix check
can run. -/
theorem broadcast_auth_alternative_rejected :
    validate_email_all_checks ⟨[authAlt_list], []⟩ [] authAlt_msg authAlt_list
        (strL "lists.example.com") =
      Except.ok ("sender-not-allowed", authAlt_msg) ∧
    ("sender-not-allowed" : String) ≠ "ok" :=
  ⟨rfl, by decide⟩

/-! Claim C3: duplicate redelivery handling. -/

/-- C3: re-delivering an already-stored `(message_id, list_id)` is classified
as a duplicate (moved to the Duplicate folder, no forwarding since the
returned flag is `false`), but contrary to the claim no audit row under a
synthesized key is persisted: the transaction is rolled back and the table is
returned unchanged, so the duplicate attempt leaves no database trace. -/
theorem duplicate_attempt_not_persisted :
    store_msg_in_db_and_imap scenarioFolders dupExisting_rows
        ⟨1, strL "list@example.com", "broadcast", [], [], false, false⟩
        dupRedelivery_msg (strL "5a01-uuid") "ok" =
      (dupExisting_rows, "Duplicate", false) := rfl

/-! Claim C6: uniqueness of stored incoming messages. -/

/-- C6: the schema declared by `models.EmailIn` (`message_id` with
`unique=True`, used by `db.create_all()`) rejects recording the same
Message-ID for two different lists, contrary to the claim; the composite-key
constraint of migration `c4ad571fe783` would permit it.  The two schema
sources of the repository disagree, and the store's insert follows the model
declaration.  (Within one list, both reject the duplicate.) -/
theorem email_in_unique_constraint_blocks_crosspost :
    email_in_unique_ok [⟨strL "m1", 1, "ok"⟩] ⟨strL "m1", 2, "ok"⟩ = false ∧
    email_in_composite_ok [⟨strL "m1", 1, "ok"⟩] ⟨strL "m1", 2, "ok"⟩ = true ∧
    email_in_unique_ok [⟨strL "m1", 1, "ok"⟩] ⟨strL "m1", 1, "duplicate"⟩ = false ∧
    email_in_composite_ok [⟨strL "m1", 1, "ok"⟩] ⟨strL "m1", 1, "duplicate"⟩ = false := by
  decide

/-! Claim C8: stripping the sender-auth suffix from the To header. -/

/-- C8: when a message is accepted via a `sender_auth` suffix, the rewrite in
`remove_password_in_to_address` replaces every To address with the stripped
list address (its list comprehension tests the truthiness of `old_to`, not
equality), so the unrelated `other@example.com` is clobbered instead of left
unchanged, contrary to the claim. -/
theorem remove_password_clobbers_all_to :
    validate_email_all_checks ⟨[suffixOnly_list], []⟩ [] twoTo_msg suffixOnly_list
        (strL "lists.example.com") =
      Except.ok ("ok",
        { twoTo_msg with
          to_addrs := [strL "list@example.com", strL "list@example.com"] }) ∧
    strL "other@example.com" ∈ twoTo_msg.to_addrs ∧
    strL "other@example.com" ∉ [strL "list@example.com", strL "list@example.com"] :=
  ⟨rfl, by decide, by decide⟩

/-! Claim C1: Scenario A end-to-end. -/

/-- C1: on Scenario A (open broadcast list `ann@ex.com` with subscribers
`a@ex.com` and `b@ex.com`, inbound mail From `x@ex.com`) classification
yields `ok`, the message is stored and moved to the Processed folder, and the
resolver finds both subscribers — but dispatch performs zero SMTP sends, not
one per subscriber: `send_msg_to_subscribers` returns at mailer.py line 260
before its sending loop. -/
theorem scenarioA_zero_sends :
    validate_email_all_checks scenarioA_db [] scenarioA_msg scenarioA_list
        (strL "lists.ex.com") = Except.ok ("ok", scenarioA_msg) ∧
    store_msg_in_db_and_imap scenarioFolders [] scenarioA_list scenarioA_msg
        (strL "5a01-uuid") "ok" =
      ([⟨strL "a1@ex.com", 1, "ok"⟩], "Processed", true) ∧
    get_list_subscribers scenarioA_db scenarioA_list =
      [strL "a@ex.com", strL "b@ex.com"] ∧
    send_msg_to_subscribers scenarioA_db scenarioA_list scenarioA_msg = [] :=
  ⟨rfl, rfl, rfl, rfl⟩

/-! Claim C5: the self-loop guard. -/

/-- C5 (counterexample): the self-loop guard does not take precedence over the
mode checks: a non-bounce message carrying the loop-marker header with the
instance's domain, sent by a sender outside a broadcast allow-list, is
classified `sender-not-allowed`, not `duplicate-from-same-instance` — the
guard runs only after the allow-list, sender-auth and subscriber checks. -/
theorem self_loop_guard_not_first :
    validate_email_all_checks ⟨[loopGuard_list], []⟩ [] loopGuard_msg loopGuard_list
        (strL "lists.example.com") =
      Except.ok ("sender-not-allowed", loopGuard_msg) ∧
    ("sender-not-allowed" : String) ≠ "duplicate-from-same-instance" :=
  ⟨rfl, by decide⟩

/-- C5 (amended): the self-loop guard runs after bounce detection and after
the mode-specific authorization checks; for a broadcast-mode, non-bounce
message on a list with no allow-list and no sender-auth configured, a
loop-marker header value equal to the instance's domain yields
`duplicate-from-same-instance`. -/
theorem self_loop_guard_after_checks (db : DB) (flufl : List Str) (msg : PyMsg)
    (ml : MList) (dom : Str)
    (hb : detect_bounce flufl msg = [])
    (hmode : ml.mode = "broadcast")
    (hallow : ml.allowed_senders = [])
    (hauth : ml.sender_auth = [])
    (hvals : ∃ vals, headerValues msg "x-castmail2list-domain" = some vals ∧
      vals.contains dom = true) :
    validate_email_all_checks db flufl msg ml dom =
      Except.ok ("duplicate-from-same-instance", msg) := by
  rcases hvals with ⟨vals, hv, hcont⟩
  simp [validate_email_all_checks, validate_after_auth, hb, hmode, hallow, hauth,
    hv, hcont]
  exact List.elem_iff.mp hcont

/-- C5 (witness): the amended guard at a concrete open broadcast list and a
concrete message carrying the loop-marker header. -/
theorem self_loop_guard_after_checks_witness :
    validate_email_all_checks ⟨[loopOpen_list], []⟩ []
        ⟨some (strL "b@ex.com"), [strL "list@ex.com"],
          [("x-castmail2list-domain", [strL "lists.example.com"])]⟩
        loopOpen_list (strL "lists.example.com") =
      Except.ok ("duplicate-from-same-instance",
        ⟨some (strL "b@ex.com"), [strL "list@ex.com"],
          [("x-castmail2list-domain", [strL "lists.example.com"])]⟩) :=
  self_loop_guard_after_checks _ _ _ _ _ (by decide) (by decide) (by decide) (by decide)
    ⟨[strL "lists.example.com"], by decide, by decide⟩

/-! Claim C7: termination and exclusions of the recursive recipient
resolver. -/

theorem goNested_visited_sub (db : DB) (rec : MList → CollectState → CollectState)
    (hrec : ∀ l st, st.visited ⊆ (rec l st).visited) :
    ∀ (subs : List Subscr) (st : CollectState),
      st.visited ⊆ (goNested db rec subs st).visited := by
  intro subs
  induction subs with
  | nil => intro st; simp [goNested]
  | cons s rest ih =>
    intro st
    simp only [goNested]
    rcases hn : nested_list_for db s.email with _ | nl
    · exact ih st
    · by_cases hv : nl.id ∈ st.visited
      · simp only [if_pos hv]
        exact ih st
      · simp only [if_neg hv]
        exact fun a ha => ih (rec nl st) (hrec nl st ha)

theorem collect_visited_sub (db : DB) :
    ∀ (fuel : Nat) (l : MList) (st : CollectState),
      st.visited ⊆ (collect db fuel l st).visited := by
  intro fuel
  induction fuel with
  | zero => intro l st; simp [collect]
  | succ f ih =>
    intro l st
    simp only [collect]
    by_cases hv : l.id ∈ st.visited
    · simp [hv]
    · rw [if_neg hv]
      have hst1 : st.visited ⊆ l.id :: st.visited := fun a ha => List.mem_cons_of_mem _ ha
      cases hd : l.deleted
      · simp only [Bool.false_eq_true, if_false]
        exact fun a ha =>
          goNested_visited_sub db (collect db f) ih _ _ (hst1 ha)
      · simp only [if_true]
        exact hst1

theorem filter_length_mono {α : Type} (p q : α → Bool)
    (h : ∀ x, q x = true → p x = true) :
    ∀ xs : List α, (xs.filter q).length ≤ (xs.filter p).length := by
  intro xs
  induction xs with
  | nil => simp
  | cons x rest ih =>
    by_cases hq : q x = true
    · have hp := h x hq
      simp only [List.filter_cons, hq, hp, if_true, List.length_cons]
      exact Nat.succ_le_succ ih
    · have hq' : q x = false := by simpa using hq
      cases hp : p x
      · simp only [List.filter_cons, hq', hp, Bool.false_eq_true, if_false]
        exact ih
      · simp only [List.filter_cons, hq', hp, Bool.false_eq_true, if_false, if_true,
          List.length_cons]
        exact Nat.le_succ_of_le ih

theorem filter_length_strict {α : Type} (p q : α → Bool)
    (h : ∀ x, q x = true → p x = true) :
    ∀ xs : List α, (∃ x ∈ xs, p x = true ∧ q x = false) →
      (xs.filter q).length < (xs.filter p).length := by
  intro xs
  induction xs with
  | nil => rintro ⟨x, hx, _⟩; exact absurd hx (List.not_mem_nil x)
  | cons a rest ih =>
    rintro ⟨x, hx, hpx, hqx⟩
    rcases List.mem_cons.mp hx with rfl | hx'
    · simp only [List.filter_cons, hqx, hpx, Bool.false_eq_true, if_false, if_true,
        List.length_cons]
      exact Nat.lt_succ_of_le (filter_length_mono p q h rest)
    · by_cases hqa : q a = true
      · have hpa := h a hqa
        simp only [List.filter_cons, hqa, hpa, if_true, List.length_cons]
        exact Nat.succ_lt_succ (ih ⟨x, hx', hpx, hqx⟩)
      · have hqa' : q a = false := by simpa using hqa
        cases hpa : p a
        · simp only [List.filter_cons, hqa', hpa, Bool.false_eq_true, if_false]
          exact ih ⟨x, hx', hpx, hqx⟩
        · simp only [List.filter_cons, hqa', hpa, Bool.false_eq_true, if_false, if_true,
            List.length_cons]
          exact Nat.lt_succ_of_lt (ih ⟨x, hx', hpx, hqx⟩)

theorem unvisitedCount_antitone (db : DB) (v v' : List Nat) (h : v ⊆ v') :
    unvisitedCount db v' ≤ unvisitedCount db v := by
  apply filter_length_mono
  intro l hl
  rw [Bool.not_eq_true'] at hl ⊢
  simp only [List.contains] at hl ⊢
  by_cases hm : l.id ∈ v
  · have : l.id ∈ v' := h hm
    have := List.elem_iff.mpr this
    rw [this] at hl
    exact absurd hl (by simp)
  · simpa [List.elem_iff] using hm

theorem unvisitedCount_decrease (db : DB) (v : List Nat) (l : MList)
    (hl : l ∈ db.lists) (hnv : l.id ∉ v) :
    unvisitedCount db (l.id :: v) < unvisitedCount db v := by
  apply filter_length_strict
  · intro x hx
    rw [Bool.not_eq_true'] at hx ⊢
    by_cases hm : x.id ∈ v
    · have : x.id ∈ l.id :: v := List.mem_cons_of_mem _ hm
      have hc : (l.id :: v).contains x.id = true := by simpa using this
      rw [hc] at hx
      exact absurd hx (by simp)
    · simpa using hm
  · refine ⟨l, hl, ?_, ?_⟩
    · rw [Bool.not_eq_true']
      simpa using hnv
    · simp

theorem nested_list_for_mem (db : DB) (e : Str) (nl : MList)
    (h : nested_list_for db e = some nl) : nl ∈ db.lists := by
  have hmem : nl ∈ db.lists.filter (fun l => l.address == e) :=
    List.mem_of_mem_getLast? (Option.mem_def.mpr h)
  exact (List.mem_filter.mp hmem).1

theorem goNested_no_exhaust (db : DB) (f : Nat)
    (hIH : ∀ (l : MList) (st : CollectState), l ∈ db.lists → st.exhausted = false →
      unvisitedCount db st.visited + 1 ≤ f → (collect db f l st).exhausted = false) :
    ∀ (subs : List Subscr) (st : CollectState), st.exhausted = false →
      unvisitedCount db st.visited + 1 ≤ f →
      (goNested db (collect db f) subs st).exhausted = false := by
  intro subs
  induction subs with
  | nil => intro st h _; simpa [goNested] using h
  | cons s rest ih =>
    intro st hex hcnt
    simp only [goNested]
    rcases hn : nested_list_for db s.email with _ | nl
    · exact ih st hex hcnt
    · by_cases hv : nl.id ∈ st.visited
      · simp only [if_pos hv]
        exact ih st hex hcnt
      · simp only [if_neg hv]
        have hex' : (collect db f nl st).exhausted = false :=
          hIH nl st (nested_list_for_mem db s.email nl hn) hex hcnt
        have hsub : st.visited ⊆ (collect db f nl st).visited :=
          collect_visited_sub db f nl st
        have hcnt' : unvisitedCount db (collect db f nl st).visited + 1 ≤ f :=
          le_trans (Nat.succ_le_succ (unvisitedCount_antitone db _ _ hsub)) hcnt
        exact ih _ hex' hcnt'

theorem collect_no_exhaust (db : DB) :
    ∀ (f : Nat) (l : MList) (st : CollectState), l ∈ db.lists →
      st.exhausted = false → unvisitedCount db st.visited + 1 ≤ f →
      (collect db f l st).exhausted = false := by
  intro f
  induction f with
  | zero => intro l st _ _ hcnt; exact absurd hcnt (by omega)
  | succ f ih =>
    intro l st hl hex hcnt
    simp only [collect]
    by_cases hv : l.id ∈ st.visited
    · simpa [hv] using hex
    · rw [if_neg hv]
      have hdec : unvisitedCount db (l.id :: st.visited) < unvisitedCount db st.visited :=
        unvisitedCount_decrease db st.visited l hl hv
      cases hd : l.deleted
      · simp only [Bool.false_eq_true, if_false]
        apply goNested_no_exhaust db f ih
        · simpa using hex
        · simp only []
          omega
      · simpa using hex

theorem get_list_subscribers_state_no_exhaust (db : DB) (ml : MList) :
    (get_list_subscribers_state db ml).exhausted = false := by
  have hni : ml.id ∉ ([] : List Nat) := List.not_mem_nil _
  show (collect db (db.lists.length + 1 + 1) ml ⟨[], [], false⟩).exhausted = false
  simp only [collect]
  rw [if_neg hni]
  cases hd : ml.deleted
  · simp only [Bool.false_eq_true, if_false]
    apply goNested_no_exhaust db (db.lists.length + 1) (collect_no_exhaust db _)
    · rfl
    · have hle : unvisitedCount db [ml.id] ≤ db.lists.length :=
        le_trans (List.length_filter_le _ _) (le_refl _)
      simpa using Nat.succ_le_succ hle
  · rfl

theorem addEmails_mem :
    ∀ (ss : List Subscr) (acc : List Str) (e : Str), e ∈ addEmails acc ss →
      e ∈ acc ∨ ∃ s ∈ ss, s.email = e := by
  intro ss
  induction ss with
  | nil => intro acc e h; exact Or.inl (by simpa [addEmails] using h)
  | cons s rest ih =>
    intro acc e h
    have h' : e ∈ addEmails (if s.email ∈ acc then acc else acc ++ [s.email]) rest := by
      simpa [addEmails] using h
    rcases ih _ e h' with hin | ⟨t, ht, hte⟩
    · by_cases hs : s.email ∈ acc
      · rw [if_pos hs] at hin
        exact Or.inl hin
      · rw [if_neg hs] at hin
        rcases List.mem_append.mp hin with h1 | h1
        · exact Or.inl h1
        · exact Or.inr ⟨s, List.mem_cons_self s rest, (List.mem_singleton.mp h1).symm⟩
    · exact Or.inr ⟨t, List.mem_cons_of_mem _ ht, hte⟩

theorem goNested_emails_prov (db : DB) (ml : MList)
    (rec : MList → CollectState → CollectState)
    (hrec : ∀ l st, l ∈ db.lists →
      (∀ e ∈ st.emails, from_live_subscriber db ml e) →
      ∀ e ∈ (rec l st).emails, from_live_subscriber db ml e) :
    ∀ (subs : List Subscr) (st : CollectState),
      (∀ e ∈ st.emails, from_live_subscriber db ml e) →
      ∀ e ∈ (goNested db rec subs st).emails, from_live_subscriber db ml e := by
  intro subs
  induction subs with
  | nil => intro st hst e he; exact hst e (by simpa [goNested] using he)
  | cons s rest ih =>
    intro st hst e he
    simp only [goNested] at he
    rcases hn : nested_list_for db s.email with _ | nl
    · rw [hn] at he
      have he' : e ∈ (goNested db rec rest st).emails := he
      exact ih st hst e he'
    · rw [hn] at he
      have he' : e ∈ (goNested db rec rest
          (if nl.id ∈ st.visited then st else rec nl st)).emails := he
      by_cases hv : nl.id ∈ st.visited
      · rw [if_pos hv] at he'
        exact ih st hst e he'
      · rw [if_neg hv] at he'
        exact ih _ (hrec nl st (nested_list_for_mem db s.email nl hn) hst) e he'

theorem collect_emails_prov (db : DB) (ml : MList) :
    ∀ (fuel : Nat) (l : MList) (st : CollectState), (l = ml ∨ l ∈ db.lists) →
      (∀ e ∈ st.emails, from_live_subscriber db ml e) →
      ∀ e ∈ (collect db fuel l st).emails, from_live_subscriber db ml e := by
  intro fuel
  induction fuel with
  | zero => intro l st _ hst e he; exact hst e (by simpa [collect] using he)
  | succ f ih =>
    intro l st hl hst e he
    simp only [collect] at he
    by_cases hv : l.id ∈ st.visited
    · rw [if_pos hv] at he
      exact hst e he
    · rw [if_neg hv] at he
      cases hd : l.deleted
      · rw [hd] at he
        simp only [Bool.false_eq_true, if_false] at he
        have hst2 : ∀ e' ∈ addEmails st.emails (direct_subs db l),
            from_live_subscriber db ml e' := by
          intro e' he'
          rcases addEmails_mem (direct_subs db l) st.emails e' he' with h1 | ⟨s, hs, hse⟩
          · exact hst e' h1
          · have hsf := List.mem_filter.mp hs
            have hsid : s.list_id = l.id := by simpa using hsf.2
            exact ⟨l, hl, hd, s, hsf.1, hsid, hse⟩
        exact goNested_emails_prov db ml (collect db f)
          (fun l' st' hl' => ih l' st' (Or.inr hl')) (direct_subs db l) _ hst2 e he
      · rw [hd] at he
        simp only [if_true] at he
        exact hst e he

/-- C7: for every configuration, including cyclic list-of-list
subscriptions, recipient resolution completes without exhausting a fuel
bound of one entry per configured list (the `visited` guard makes the
recursion terminate), and every resolved address is neither a configured
list's address (deleted or not) nor from anything but a subscriber of a
non-deleted expanded list. -/
theorem resolver_terminates_and_excludes_lists (db : DB) (ml : MList) :
    (get_list_subscribers_state db ml).exhausted = false ∧
    ∀ e ∈ get_list_subscribers db ml,
      e ∉ all_list_addresses db ∧ from_live_subscriber db ml e := by
  refine ⟨get_list_subscribers_state_no_exhaust db ml, ?_⟩
  intro e he
  have hmf := List.mem_filter.mp he
  constructor
  · have hc := hmf.2
    rw [Bool.not_eq_true'] at hc
    intro hm
    have := List.elem_iff.mpr hm
    simp only [List.contains] at hc
    rw [this] at hc
    exact absurd hc (by simp)
  · exact collect_emails_prov db ml _ ml ⟨[], [], false⟩ (Or.inl rfl)
      (by intro e' he'; exact absurd he' (List.not_mem_nil e')) e hmf.1

/-- C7 (witness): the cyclic two-list configuration with a soft-deleted third
list; `bob@ex.com` is resolved, is no list address, and stems from a live
subscriber. -/
theorem resolver_terminates_and_excludes_lists_witness :
    (get_list_subscribers_state cyclic_db cyclic_l1).exhausted = false ∧
    (strL "bob@ex.com" ∉ all_list_addresses cyclic_db ∧
      from_live_subscriber cyclic_db cyclic_l1 (strL "bob@ex.com")) :=
  ⟨(resolver_terminates_and_excludes_lists cyclic_db cyclic_l1).1,
    (resolver_terminates_and_excludes_lists cyclic_db cyclic_l1).2
      (strL "bob@ex.com") (by decide)⟩

end Castmail
